import Mathlib

/-!
Verification development for the demo-queries-parser repository.

The repository consists of two Python scripts:

* `export_queries.py` — extracts a JSON block embedded (indented, after a
  `console-configuration.json: |` header line) in a YAML document and renders
  the `savedQueries` list it contains as flat human-readable text
  (`format_queries`).
* `import_queries.py` — parses that flat text back into a category list
  (`parse_plain_text`), locates the embedded block in the original document
  (`extract_console_configuration_json_block`), replaces the `savedQueries`
  entry of the decoded object, and splices the re-serialized, re-indented
  block back into the document (`main`).

Python strings are modelled as `List Char`; a text is a `List Char` and a
line is a `List Char` containing no newline.  Documents are modelled at line
granularity (newline-terminated lines).  Each Lean definition below is a
direct translation of the corresponding Python code, with the source
function and line numbers noted in its doc comment.
-/

namespace DemoQueries

/-- Lines of text: a Python string, one line. -/
abbrev Line := List Char

/-- ASCII whitespace stripped by Python `str.strip()` / `str.rstrip()`
(space, tab, newline, carriage return, vertical tab, form feed). -/
def isPyWs (c : Char) : Bool :=
  c = ' ' || c = '\t' || c = '\n' || c = '\r' || c = '\x0b' || c = '\x0c'

/-- A line is blank when `line.strip()` is falsy, i.e. all characters are
whitespace (`import_queries.py` line 63). -/
def isBlank (l : Line) : Bool := l.all isPyWs

/-- Python `str.strip()`: drop leading and trailing whitespace. -/
def pyStrip (l : Line) : Line :=
  ((l.dropWhile isPyWs).reverse.dropWhile isPyWs).reverse

/-- Python `str.rstrip()`: drop trailing whitespace. -/
def pyRstrip (l : Line) : Line :=
  (l.reverse.dropWhile isPyWs).reverse

/-- Python `is_separator_line(line, char)` (`import_queries.py` lines 56-58):
the stripped line is nonempty and consists solely of the character `c`. -/
def is_separator_line (l : Line) (c : Char) : Bool :=
  let s := pyStrip l
  !s.isEmpty && s.all (· = c)

/-- Split a text at every newline character (the pieces; a text with no
newline is one piece).  This is `str.split("\n")` on texts whose only
line-break character is `'\n'`. -/
def splitOnNL : List Char → List Line
  | [] => [[]]
  | c :: cs =>
    if c = '\n' then [] :: splitOnNL cs
    else
      match splitOnNL cs with
      | [] => [[c]]
      | l :: ls => (c :: l) :: ls

/-- Python `str.splitlines()` restricted to `'\n'` line breaks: like
`splitOnNL` but a trailing empty piece (text empty or ending in a newline)
is dropped. -/
def pySplitlines (t : List Char) : List Line :=
  let ps := splitOnNL t
  if ps.getLast? = some [] then ps.dropLast else ps

/-- Python `"\n".join(lines)`. -/
def joinNL : List Line → List Char
  | [] => []
  | [l] => l
  | l :: ls => l ++ '\n' :: joinNL ls

/-- The literal `"Category:"`. -/
def catTok : Line := ['C', 'a', 't', 'e', 'g', 'o', 'r', 'y', ':']

/-- The literal `"Description:"`. -/
def descTok : Line := ['D', 'e', 's', 'c', 'r', 'i', 'p', 't', 'i', 'o', 'n', ':']

/-- The literal `"Query Name:"`. -/
def qnTok : Line := ['Q', 'u', 'e', 'r', 'y', ' ', 'N', 'a', 'm', 'e', ':']

/-- A 40-character separator line, `char * 40` in the Python renderer. -/
def sepLine (c : Char) : Line := List.replicate 40 c

/-- A saved query: `{"name": ..., "value": ...}`. -/
structure Query where
  name : Line
  value : Line
deriving DecidableEq

/-- A category: `{"title": ..., "description": ..., "queries": [...]}`. -/
structure Category where
  title : Line
  description : Line
  queries : List Query
deriving DecidableEq

/-- Fatal outcomes of `parse_plain_text`:
`malformedFlatText` models the `sys.exit` at `import_queries.py` line 112
(missing `-` separator); `noneDeref` models the `TypeError` Python would
raise on `current_query["value"]` / `current_category["queries"].append`
when the object is `None`; `outOfFuel` is an artifact of the fuelled
encoding of the `while` loop and is proved unreachable. -/
inductive PErr
  | malformedFlatText
  | noneDeref
  | outOfFuel
deriving DecidableEq

/-- Parser states (`import_queries.py` line 53). -/
inductive PState
  | init
  | category_header
  | in_category
  | in_query_header
  | in_query_value
deriving DecidableEq

/-- Finalize an open query into its category (`import_queries.py`
lines 72-73, 98-99, 119-120, 136-137):
`current_query["value"] = "\n".join(value).rstrip()` then append. -/
def closeQuery (c : Category) (q : Line × List Line) : Category :=
  { c with queries := c.queries ++ [⟨q.1, pyRstrip (joinNL q.2)⟩] }

/-- The `Category:` branch's closing step (`import_queries.py` lines 69-75):
if a category is open, finalize any open query into it and append the
category to the result; an open query is touched only when a category is
open.  Returns the new result list and the remaining open query. -/
def closeForNewCategory (cc : Option Category) (cq : Option (Line × List Line))
    (acc : List Category) : List Category × Option (Line × List Line) :=
  match cc with
  | none => (acc, cq)
  | some c =>
    match cq with
    | none => (acc ++ [c], none)
    | some q => (acc ++ [closeQuery c q], none)

/-- The `Query Name:` branch's closing step (`import_queries.py`
lines 96-100): finalize any open query into the current category.
Dereferences the current category when a query is open. -/
def closeQueryInto (cc : Option Category) (cq : Option (Line × List Line)) :
    Except PErr (Option Category) :=
  match cq with
  | none => .ok cc
  | some q =>
    match cc with
    | none => .error .noneDeref
    | some c => .ok (some (closeQuery c q))

/-- The lookahead after a `Category:` line (`import_queries.py` lines 79-91):
skip blank lines; optionally consume one `Description:` line; skip blank
lines; if the next line is an `=`-separator, consume it and enter
`in_category`, otherwise stay in `category_header` without consuming.
Returns the next state, the new category, and the remaining lines. -/
def consumeCategoryHeader (title : Line) (rest : List Line) :
    PState × Category × List Line :=
  let r1 := rest.dropWhile isBlank
  let p :=
    match r1 with
    | [] => (([] : Line), ([] : List Line))
    | d :: r2 =>
      if descTok.isPrefixOf d then (pyStrip (d.drop descTok.length), r2)
      else (([] : Line), r1)
  let r3 := p.2.dropWhile isBlank
  match r3 with
  | [] => (.category_header, ⟨title, p.1, []⟩, [])
  | s :: r4 =>
    if is_separator_line s '=' then (.in_category, ⟨title, p.1, []⟩, r4)
    else (.category_header, ⟨title, p.1, []⟩, r3)

/-- The lookahead after a `Query Name:` line (`import_queries.py`
lines 105-110): skip blank lines and demand a `-`-separator line; `none`
means the separator is missing (fatal, line 112). -/
def consumeDashSep (rest : List Line) : Option (List Line) :=
  match rest.dropWhile isBlank with
  | [] => none
  | s :: r2 => if is_separator_line s '-' then some r2 else none

/-- End-of-input finalization (`import_queries.py` lines 134-140). -/
def atEof (cc : Option Category) (cq : Option (Line × List Line))
    (acc : List Category) : Except PErr (List Category) :=
  match cq with
  | some q =>
    match cc with
    | none => .error .noneDeref
    | some c => .ok (acc ++ [closeQuery c q])
  | none =>
    match cc with
    | none => .ok acc
    | some c => .ok (acc ++ [c])

/-- The `while` loop of `parse_plain_text` (`import_queries.py` lines 61-140),
as a function of the remaining lines.  `fuel` bounds the number of loop
iterations; since every iteration consumes at least one line,
`lines.length + 1` is always sufficient (proved below). -/
def parseLoopF : Nat → List Line → PState → Option Category →
    Option (Line × List Line) → List Category → Except PErr (List Category)
  | _, [], _, cc, cq, acc => atEof cc cq acc
  | 0, _ :: _, _, _, _, _ => .error .outOfFuel
  | fuel + 1, line :: rest, st, cc, cq, acc =>
    if isBlank line then
      parseLoopF fuel rest st cc cq acc
    else if catTok.isPrefixOf line then
      let p := closeForNewCategory cc cq acc
      let t := consumeCategoryHeader (pyStrip (line.drop catTok.length)) rest
      parseLoopF fuel t.2.2 t.1 (some t.2.1) p.2 p.1
    else if st = .in_category ∧ qnTok.isPrefixOf line then
      match closeQueryInto cc cq with
      | .error e => .error e
      | .ok cc' =>
        match consumeDashSep rest with
        | some r2 =>
            parseLoopF fuel r2 .in_query_value cc'
              (some (pyStrip (line.drop qnTok.length), [])) acc
        | none => .error .malformedFlatText
    else if st = .in_query_value then
      if is_separator_line line '=' then
        match cq with
        | none => .error .noneDeref
        | some q =>
          match cc with
          | none => .error .noneDeref
          | some c => parseLoopF fuel rest .in_category (some (closeQuery c q)) none acc
      else
        match cq with
        | none => .error .noneDeref
        | some q => parseLoopF fuel rest .in_query_value cc (some (q.1, q.2 ++ [line])) acc
    else
      parseLoopF fuel rest st cc cq acc

/-- Run the parse loop with sufficient fuel. -/
def parseRun (lines : List Line) (st : PState) (cc : Option Category)
    (cq : Option (Line × List Line)) (acc : List Category) :
    Except PErr (List Category) :=
  parseLoopF (lines.length + 1) lines st cc cq acc

/-- `parse_plain_text(text)` (`import_queries.py` lines 22-140).  The Python
function returns `{"savedQueries": saved_queries}`; we return the
`saved_queries` list itself. -/
def parse_plain_text (t : List Char) : Except PErr (List Category) :=
  parseRun (pySplitlines t) .init none none []

/-- The per-query elements appended to `output_lines`
(`export_queries.py` lines 82-89). -/
def qElems (q : Query) : List (List Char) :=
  [qnTok ++ ' ' :: q.name, sepLine '-', pyRstrip q.value, sepLine '=', []]

/-- The per-category elements appended to `output_lines`
(`export_queries.py` lines 74-90). -/
def catElems (c : Category) : List (List Char) :=
  [catTok ++ ' ' :: c.title] ++
    (if c.description ≠ [] then [descTok ++ ' ' :: c.description] else []) ++
    [sepLine '='] ++ c.queries.flatMap qElems ++ [['\n']]

/-- `format_queries(data)` (`export_queries.py` lines 50-91):
`"\n".join(output_lines)` over the elements above. -/
def format_queries (cats : List Category) : List Char :=
  joinNL (cats.flatMap catElems)

/-! ### Basic facts about the loop: fuel irrelevance and one-step equations -/

theorem length_dropWhile_le (p : Line → Bool) (l : List Line) :
    (l.dropWhile p).length ≤ l.length :=
  (List.dropWhile_suffix p).length_le

theorem dropWhile_dropWhile (p : α → Bool) (l : List α) :
    (l.dropWhile p).dropWhile p = l.dropWhile p := by
  induction l with
  | nil => rfl
  | cons a l ih =>
    by_cases h : p a
    · rw [List.dropWhile_cons_of_pos h, ih]
    · rw [List.dropWhile_cons_of_neg h, List.dropWhile_cons_of_neg h]

theorem consumeCategoryHeader_len (ttl : Line) (rest : List Line) :
    (consumeCategoryHeader ttl rest).2.2.length ≤ rest.length := by
  have h1 : (rest.dropWhile isBlank).length ≤ rest.length := length_dropWhile_le _ _
  unfold consumeCategoryHeader
  dsimp only
  cases hr1 : rest.dropWhile isBlank with
  | nil => simp
  | cons d r2 =>
    rw [hr1] at h1
    simp only [List.length_cons] at h1
    dsimp only
    by_cases hpre : descTok.isPrefixOf d
    · simp only [hpre, if_pos]
      have h2 : (r2.dropWhile isBlank).length ≤ r2.length := length_dropWhile_le _ _
      cases hr3 : r2.dropWhile isBlank with
      | nil => simp
      | cons s r4 =>
        rw [hr3] at h2
        simp only [List.length_cons] at h2
        dsimp only
        by_cases hsep : is_separator_line s '='
        · simp only [hsep, if_pos]
          omega
        · simp only [hsep, Bool.false_eq_true, if_neg, not_false_eq_true]
          simp only [List.length_cons]
          omega
    · simp only [hpre, Bool.false_eq_true, if_neg, not_false_eq_true]
      have h3 : (d :: r2).dropWhile isBlank = d :: r2 := by
        rw [← hr1]; exact dropWhile_dropWhile _ _
      rw [h3]
      dsimp only
      by_cases hsep : is_separator_line d '='
      · simp only [hsep, if_pos]
        omega
      · simp only [hsep, Bool.false_eq_true, if_neg, not_false_eq_true]
        simp only [List.length_cons]
        omega

theorem consumeDashSep_len {rest r2 : List Line} (h : consumeDashSep rest = some r2) :
    r2.length ≤ rest.length := by
  unfold consumeDashSep at h
  have h1 : (rest.dropWhile isBlank).length ≤ rest.length := length_dropWhile_le _ _
  split at h
  · exact absurd h (by simp)
  · rename_i s r heq
    have : (s :: r).length ≤ rest.length := heq ▸ h1
    split at h
    · cases h; simp at this; omega
    · exact absurd h (by simp)

theorem parseLoopF_cons (f : Nat) (line : Line) (rest : List Line) (st : PState)
    (cc : Option Category) (cq : Option (Line × List Line)) (acc : List Category) :
    parseLoopF (f + 1) (line :: rest) st cc cq acc =
      (if isBlank line then
        parseLoopF f rest st cc cq acc
      else if catTok.isPrefixOf line then
        let p := closeForNewCategory cc cq acc
        let t := consumeCategoryHeader (pyStrip (line.drop catTok.length)) rest
        parseLoopF f t.2.2 t.1 (some t.2.1) p.2 p.1
      else if st = .in_category ∧ qnTok.isPrefixOf line then
        match closeQueryInto cc cq with
        | .error e => .error e
        | .ok cc' =>
          match consumeDashSep rest with
          | some r2 =>
              parseLoopF f r2 .in_query_value cc'
                (some (pyStrip (line.drop qnTok.length), [])) acc
          | none => .error .malformedFlatText
      else if st = .in_query_value then
        if is_separator_line line '=' then
          match cq with
          | none => .error .noneDeref
          | some q =>
            match cc with
            | none => .error .noneDeref
            | some c => parseLoopF f rest .in_category (some (closeQuery c q)) none acc
        else
          match cq with
          | none => .error .noneDeref
          | some q => parseLoopF f rest .in_query_value cc (some (q.1, q.2 ++ [line])) acc
      else
        parseLoopF f rest st cc cq acc) := rfl

theorem parseLoopF_nil (f : Nat) (st : PState) (cc : Option Category)
    (cq : Option (Line × List Line)) (acc : List Category) :
    parseLoopF f [] st cc cq acc = atEof cc cq acc := by
  cases f <;> rfl

theorem parseLoopF_fuel :
    ∀ (f₁ : Nat) {f₂ : Nat} {lines : List Line} {st cc cq acc},
      lines.length < f₁ → lines.length < f₂ →
      parseLoopF f₁ lines st cc cq acc = parseLoopF f₂ lines st cc cq acc := by
  intro f₁
  induction f₁ with
  | zero => intro f₂ lines st cc cq acc h1 _; omega
  | succ n ih =>
    intro f₂ lines st cc cq acc h1 h2
    match lines, f₂ with
    | [], f₂ => rw [parseLoopF_nil, parseLoopF_nil]
    | line :: rest, 0 => simp at h2
    | line :: rest, m + 1 =>
      rw [parseLoopF_cons, parseLoopF_cons]
      simp only [List.length_cons] at h1 h2
      by_cases hb : isBlank line
      · simp only [hb, if_pos]
        exact ih (by omega) (by omega)
      · simp only [hb, Bool.false_eq_true, if_neg, not_false_eq_true]
        by_cases hc : catTok.isPrefixOf line
        · simp only [hc, if_pos]
          have hlen := consumeCategoryHeader_len (pyStrip (line.drop catTok.length)) rest
          exact ih (by omega) (by omega)
        · simp only [hc, Bool.false_eq_true, if_neg, not_false_eq_true]
          by_cases hq : st = .in_category ∧ qnTok.isPrefixOf line = true
          · simp only [if_pos hq]
            cases hcl : closeQueryInto cc cq with
            | error e => rfl
            | ok cc' =>
              cases hds : consumeDashSep rest with
              | none => rfl
              | some r2 =>
                have hlen := consumeDashSep_len hds
                exact ih (by omega) (by omega)
          · simp only [if_neg hq]
            by_cases hv : st = .in_query_value
            · simp only [if_pos hv]
              by_cases hs : is_separator_line line '='
              · simp only [hs, if_pos]
                cases cq with
                | none => rfl
                | some q =>
                  cases cc with
                  | none => rfl
                  | some c => exact ih (by omega) (by omega)
              · simp only [hs, Bool.false_eq_true, if_neg, not_false_eq_true]
                cases cq with
                | none => rfl
                | some q => exact ih (by omega) (by omega)
            · simp only [if_neg hv]
              exact ih (by omega) (by omega)

theorem parseRun_eq (f : Nat) {lines : List Line} {st cc cq acc}
    (h : lines.length < f) :
    parseLoopF f lines st cc cq acc = parseRun lines st cc cq acc :=
  parseLoopF_fuel f h (by omega)

theorem parseRun_nil (st : PState) (cc : Option Category)
    (cq : Option (Line × List Line)) (acc : List Category) :
    parseRun [] st cc cq acc = atEof cc cq acc := rfl

theorem parseRun_blank {line : Line} (h : isBlank line = true) (rest : List Line)
    (st : PState) (cc : Option Category) (cq : Option (Line × List Line))
    (acc : List Category) :
    parseRun (line :: rest) st cc cq acc = parseRun rest st cc cq acc := by
  unfold parseRun
  simp only [List.length_cons]
  rw [parseLoopF_cons]
  simp [h]

theorem parseRun_skip {line : Line} {st : PState}
    (hb : isBlank line = false) (hc : catTok.isPrefixOf line = false)
    (hq : ¬(st = .in_category ∧ qnTok.isPrefixOf line = true))
    (hv : st ≠ .in_query_value)
    (rest : List Line) (cc : Option Category) (cq : Option (Line × List Line))
    (acc : List Category) :
    parseRun (line :: rest) st cc cq acc = parseRun rest st cc cq acc := by
  unfold parseRun
  simp only [List.length_cons]
  rw [parseLoopF_cons]
  rw [if_neg (by simp [hb]), if_neg (by simp [hc]), if_neg hq, if_neg hv]

theorem parseRun_category {line : Line} (hb : isBlank line = false)
    (hc : catTok.isPrefixOf line = true) (rest : List Line) (st : PState)
    (cc : Option Category) (cq : Option (Line × List Line)) (acc : List Category) :
    parseRun (line :: rest) st cc cq acc =
      parseRun (consumeCategoryHeader (pyStrip (line.drop catTok.length)) rest).2.2
        (consumeCategoryHeader (pyStrip (line.drop catTok.length)) rest).1
        (some (consumeCategoryHeader (pyStrip (line.drop catTok.length)) rest).2.1)
        (closeForNewCategory cc cq acc).2 (closeForNewCategory cc cq acc).1 := by
  unfold parseRun
  simp only [List.length_cons]
  rw [parseLoopF_cons]
  simp only [hb, Bool.false_eq_true, if_neg, not_false_eq_true, hc, if_pos]
  exact parseRun_eq _ (by
    have := consumeCategoryHeader_len (pyStrip (line.drop catTok.length)) rest
    omega)

theorem parseRun_queryname {line : Line} {rest r2 : List Line}
    (hb : isBlank line = false) (hc : catTok.isPrefixOf line = false)
    (hq : qnTok.isPrefixOf line = true) (hds : consumeDashSep rest = some r2)
    (c : Category) (acc : List Category) :
    parseRun (line :: rest) .in_category (some c) none acc =
      parseRun r2 .in_query_value (some c)
        (some (pyStrip (line.drop qnTok.length), [])) acc := by
  unfold parseRun
  simp only [List.length_cons]
  rw [parseLoopF_cons]
  rw [if_neg (by simp [hb]), if_neg (by simp [hc]), if_pos (And.intro rfl hq)]
  show (match consumeDashSep rest with
    | some r2 =>
        parseLoopF (rest.length + 1) r2 .in_query_value (some c)
          (some (pyStrip (line.drop qnTok.length), [])) acc
    | none => (.error .malformedFlatText : Except PErr (List Category))) = _
  rw [hds]
  exact parseRun_eq _ (by have := consumeDashSep_len hds; omega)

theorem parseRun_queryname_fail {line : Line} {rest : List Line}
    (hb : isBlank line = false) (hc : catTok.isPrefixOf line = false)
    (hq : qnTok.isPrefixOf line = true) (hds : consumeDashSep rest = none)
    (c : Category) (acc : List Category) :
    parseRun (line :: rest) .in_category (some c) none acc =
      .error .malformedFlatText := by
  unfold parseRun
  simp only [List.length_cons]
  rw [parseLoopF_cons]
  rw [if_neg (by simp [hb]), if_neg (by simp [hc]), if_pos (And.intro rfl hq)]
  show (match consumeDashSep rest with
    | some r2 =>
        parseLoopF (rest.length + 1) r2 .in_query_value (some c)
          (some (pyStrip (line.drop qnTok.length), [])) acc
    | none => (.error .malformedFlatText : Except PErr (List Category))) = _
  rw [hds]

theorem parseRun_value_sep {line : Line} (hb : isBlank line = false)
    (hc : catTok.isPrefixOf line = false) (hs : is_separator_line line '=' = true)
    (rest : List Line) (c : Category) (q : Line × List Line) (acc : List Category) :
    parseRun (line :: rest) .in_query_value (some c) (some q) acc =
      parseRun rest .in_category (some (closeQuery c q)) none acc := by
  unfold parseRun
  simp only [List.length_cons]
  rw [parseLoopF_cons]
  simp [hb, hc, hs]

theorem parseRun_value_acc {line : Line} (hb : isBlank line = false)
    (hc : catTok.isPrefixOf line = false) (hs : is_separator_line line '=' = false)
    (rest : List Line) (cc : Option Category) (n : Line) (vls : List Line)
    (acc : List Category) :
    parseRun (line :: rest) .in_query_value cc (some (n, vls)) acc =
      parseRun rest .in_query_value cc (some (n, vls ++ [line])) acc := by
  unfold parseRun
  simp only [List.length_cons]
  rw [parseLoopF_cons]
  simp [hb, hc, hs]

/-! ### Safety: the loop never runs out of fuel and never dereferences `None` -/

theorem atEof_ne_outOfFuel (cc : Option Category) (cq : Option (Line × List Line))
    (acc : List Category) : atEof cc cq acc ≠ .error .outOfFuel := by
  unfold atEof
  cases cq with
  | some q => cases cc <;> simp
  | none => cases cc <;> simp

theorem closeQueryInto_error {cc : Option Category} {cq : Option (Line × List Line)}
    {e : PErr} (h : closeQueryInto cc cq = .error e) : e = .noneDeref := by
  unfold closeQueryInto at h
  cases cq with
  | none => simp at h
  | some q =>
    cases cc with
    | none => simp at h; exact h.symm
    | some c => simp at h

theorem parseLoopF_no_outOfFuel :
    ∀ (f : Nat) {lines : List Line} {st cc cq acc}, lines.length < f →
      parseLoopF f lines st cc cq acc ≠ .error .outOfFuel := by
  intro f
  induction f with
  | zero => intro lines st cc cq acc h; omega
  | succ n ih =>
    intro lines st cc cq acc h
    match lines with
    | [] => rw [parseLoopF_nil]; exact atEof_ne_outOfFuel _ _ _
    | line :: rest =>
      rw [parseLoopF_cons]
      simp only [List.length_cons] at h
      by_cases hb : isBlank line
      · simp only [hb, if_pos]
        exact ih (by omega)
      · simp only [hb, Bool.false_eq_true, if_neg, not_false_eq_true]
        by_cases hc : catTok.isPrefixOf line
        · simp only [hc, if_pos]
          have hlen := consumeCategoryHeader_len (pyStrip (line.drop catTok.length)) rest
          exact ih (by omega)
        · simp only [hc, Bool.false_eq_true, if_neg, not_false_eq_true]
          by_cases hq : st = .in_category ∧ qnTok.isPrefixOf line = true
          · simp only [if_pos hq]
            cases hcl : closeQueryInto cc cq with
            | error e =>
              have he : e = .noneDeref := closeQueryInto_error hcl
              subst he
              simp
            | ok cc' =>
              cases hds : consumeDashSep rest with
              | none => simp
              | some r2 =>
                have hlen := consumeDashSep_len hds
                exact ih (by omega)
          · simp only [if_neg hq]
            by_cases hv : st = .in_query_value
            · simp only [if_pos hv]
              by_cases hs : is_separator_line line '='
              · simp only [hs, if_pos]
                cases cq with
                | none => simp
                | some q =>
                  cases cc with
                  | none => simp
                  | some c => exact ih (by omega)
              · simp only [hs, Bool.false_eq_true, if_neg, not_false_eq_true]
                cases cq with
                | none => simp
                | some q => exact ih (by omega)
            · simp only [if_neg hv]
              exact ih (by omega)

/-- The invariant maintained by the parse loop: an open query implies an open
category, the `in_category` state implies an open category, and the
`in_query_value` state implies both an open query and an open category. -/
def LoopInv (st : PState) (cc : Option Category) (cq : Option (Line × List Line)) : Prop :=
  (cq.isSome → cc.isSome) ∧ (st = .in_category → cc.isSome) ∧
    (st = .in_query_value → cq.isSome ∧ cc.isSome)

theorem loopInv_mk {st : PState} {cc : Option Category} {cq : Option (Line × List Line)}
    (h1 : cq.isSome → cc.isSome) (h2 : st = .in_category → cc.isSome)
    (h3 : st = .in_query_value → cq.isSome ∧ cc.isSome) : LoopInv st cc cq :=
  ⟨h1, h2, h3⟩

theorem consumeCategoryHeader_state (ttl : Line) (rest : List Line) :
    (consumeCategoryHeader ttl rest).1 = .in_category ∨
      (consumeCategoryHeader ttl rest).1 = .category_header := by
  unfold consumeCategoryHeader
  dsimp only
  split
  · right; rfl
  · split
    · left; rfl
    · right; rfl

theorem parseLoopF_no_noneDeref :
    ∀ (f : Nat) {lines : List Line} {st cc cq acc}, LoopInv st cc cq →
      parseLoopF f lines st cc cq acc ≠ .error .noneDeref := by
  intro f
  induction f with
  | zero =>
    intro lines st cc cq acc hinv
    match lines with
    | [] =>
      rw [parseLoopF_nil]
      unfold atEof
      cases hq : cq with
      | some q =>
        have := hinv.1
        rw [hq] at this
        cases hc : cc with
        | none => rw [hc] at this; simp at this
        | some c => simp
      | none => cases cc <;> simp
    | line :: rest => simp [parseLoopF]
  | succ n ih =>
    intro lines st cc cq acc hinv
    match lines with
    | [] =>
      rw [parseLoopF_nil]
      unfold atEof
      cases hq : cq with
      | some q =>
        have := hinv.1
        rw [hq] at this
        cases hc : cc with
        | none => rw [hc] at this; simp at this
        | some c => simp
      | none => cases cc <;> simp
    | line :: rest =>
      rw [parseLoopF_cons]
      by_cases hb : isBlank line
      · simp only [hb, if_pos]
        exact ih hinv
      · simp only [hb, Bool.false_eq_true, if_neg, not_false_eq_true]
        by_cases hc : catTok.isPrefixOf line
        · simp only [hc, if_pos]
          have hcq : cq = none ∨ cc.isSome := by
            cases cq with
            | none => left; rfl
            | some q => right; exact hinv.1 (by simp)
          have hp2 : (closeForNewCategory cc cq acc).2 = none := by
            unfold closeForNewCategory
            cases cc with
            | none =>
              rcases hcq with h | h
              · simp [h]
              · simp at h
            | some c => cases cq <;> simp
          rw [hp2]
          apply ih
          apply loopInv_mk (by simp) (fun _ => by simp)
          intro hivq
          rcases consumeCategoryHeader_state (pyStrip (line.drop catTok.length)) rest with
            h | h <;> rw [h] at hivq <;> exact absurd hivq (by intro hh; cases hh)
        · simp only [hc, Bool.false_eq_true, if_neg, not_false_eq_true]
          by_cases hq : st = .in_category ∧ qnTok.isPrefixOf line = true
          · simp only [if_pos hq]
            have hccs : cc.isSome := hinv.2.1 hq.1
            cases hcc : cc with
            | none => rw [hcc] at hccs; simp at hccs
            | some c =>
              cases hcqv : cq with
              | none =>
                simp only [hcc, hcqv, closeQueryInto]
                cases hds : consumeDashSep rest with
                | none => simp
                | some r2 =>
                  apply ih
                  exact loopInv_mk (fun _ => rfl) (fun hh => by cases hh) (fun _ => ⟨rfl, rfl⟩)
              | some q =>
                simp only [hcc, hcqv, closeQueryInto]
                cases hds : consumeDashSep rest with
                | none => simp
                | some r2 =>
                  apply ih
                  exact loopInv_mk (fun _ => rfl) (fun hh => by cases hh) (fun _ => ⟨rfl, rfl⟩)
          · simp only [if_neg hq]
            by_cases hv : st = .in_query_value
            · simp only [if_pos hv]
              have h3 := hinv.2.2 hv
              cases hcqv : cq with
              | none => rw [hcqv] at h3; simp at h3
              | some q =>
                cases hcc : cc with
                | none => rw [hcc, hcqv] at h3; simp at h3
                | some c =>
                  by_cases hs : is_separator_line line '='
                  · simp only [hs, if_pos]
                    apply ih
                    exact loopInv_mk (by simp) (fun _ => rfl) (fun hh => by cases hh)
                  · simp only [hs, Bool.false_eq_true, if_neg, not_false_eq_true]
                    apply ih
                    exact loopInv_mk (fun _ => rfl) (fun hh => by cases hh) (fun _ => ⟨rfl, rfl⟩)
            · simp only [if_neg hv]
              exact ih hinv

/-- Skipping run: while the state is `init` or `category_header` and no line
begins with `Category:`, every line is skipped and the run ends with the
end-of-input finalization. -/
theorem parseRun_skipAll :
    ∀ (lines : List Line), (∀ l ∈ lines, catTok.isPrefixOf l = false) →
      ∀ (st : PState), (st = .init ∨ st = .category_header) →
      ∀ cc cq acc, parseRun lines st cc cq acc = atEof cc cq acc := by
  intro lines
  induction lines with
  | nil => intro _ st _ cc cq acc; exact parseRun_nil st cc cq acc
  | cons line rest ih =>
    intro hcat st hst cc cq acc
    have hc : catTok.isPrefixOf line = false := hcat line (by simp)
    have hrest : ∀ l ∈ rest, catTok.isPrefixOf l = false := fun l hl => hcat l (by simp [hl])
    by_cases hb : isBlank line
    · rw [parseRun_blank hb]
      exact ih hrest st hst cc cq acc
    · rw [parseRun_skip (by simp [hb]) hc ?hq ?hv]
      · exact ih hrest st hst cc cq acc
      case hq =>
        rintro ⟨h1, _⟩
        rcases hst with h | h <;> rw [h] at h1 <;> cases h1
      case hv =>
        intro h1
        rcases hst with h | h <;> rw [h] at h1 <;> cases h1

/-! ### Splitting and joining lines -/

theorem splitOnNL_cons (c : Char) (cs : List Char) :
    splitOnNL (c :: cs) =
      (if c = '\n' then [] :: splitOnNL cs
       else
        match splitOnNL cs with
        | [] => [[c]]
        | l :: ls => (c :: l) :: ls) := by
  rw [splitOnNL]

theorem splitOnNL_ne_nil (t : List Char) : splitOnNL t ≠ [] := by
  induction t with
  | nil => simp [splitOnNL]
  | cons c cs ih =>
    rw [splitOnNL_cons]
    by_cases hc : c = '\n'
    · rw [if_pos hc]; simp
    · rw [if_neg hc]
      cases hs : splitOnNL cs with
      | nil => simp
      | cons l ls => simp

theorem splitOnNL_cons_nl (cs : List Char) :
    splitOnNL ('\n' :: cs) = [] :: splitOnNL cs := by
  rw [splitOnNL_cons, if_pos rfl]

theorem splitOnNL_cons_notNL {c : Char} (h : c ≠ '\n') (cs : List Char) :
    splitOnNL (c :: cs) =
      (c :: (splitOnNL cs).headD []) :: (splitOnNL cs).tail := by
  rw [splitOnNL_cons, if_neg h]
  cases hs : splitOnNL cs with
  | nil => exact absurd hs (splitOnNL_ne_nil cs)
  | cons l ls => simp

theorem splitOnNL_append_nl (a b : List Char) :
    splitOnNL (a ++ '\n' :: b) = splitOnNL a ++ splitOnNL b := by
  induction a with
  | nil => simp [splitOnNL]
  | cons c cs ih =>
    by_cases hc : c = '\n'
    · subst hc
      simp only [List.cons_append]
      rw [splitOnNL_cons_nl, splitOnNL_cons_nl, ih]
      simp
    · simp only [List.cons_append]
      rw [splitOnNL_cons_notNL hc, splitOnNL_cons_notNL hc, ih]
      cases hs : splitOnNL cs with
      | nil => exact absurd hs (splitOnNL_ne_nil cs)
      | cons l ls => simp

theorem splitOnNL_noNL {l : List Char} (h : ∀ c ∈ l, c ≠ '\n') :
    splitOnNL l = [l] := by
  induction l with
  | nil => rfl
  | cons c cs ih =>
    have hc : c ≠ '\n' := h c (by simp)
    rw [splitOnNL_cons_notNL hc, ih (fun x hx => h x (by simp [hx]))]
    simp

theorem joinNL_cons_cons (l l' : Line) (ls : List Line) :
    joinNL (l :: l' :: ls) = l ++ '\n' :: joinNL (l' :: ls) := rfl

theorem joinNL_splitOnNL (t : List Char) : joinNL (splitOnNL t) = t := by
  induction t with
  | nil => rfl
  | cons c cs ih =>
    by_cases hc : c = '\n'
    · subst hc
      rw [splitOnNL_cons_nl]
      cases hs : splitOnNL cs with
      | nil => exact absurd hs (splitOnNL_ne_nil cs)
      | cons l ls =>
        rw [joinNL_cons_cons]
        rw [hs] at ih
        rw [ih]
        rfl
    · rw [splitOnNL_cons_notNL hc]
      cases hs : splitOnNL cs with
      | nil => exact absurd hs (splitOnNL_ne_nil cs)
      | cons l ls =>
        rw [hs] at ih
        cases ls with
        | nil =>
          simp only [List.headD, List.tail]
          rw [show joinNL [c :: l] = c :: l from rfl]
          rw [show joinNL [l] = l from rfl] at ih
          rw [ih]
        | cons l' ls' =>
          simp only [List.headD, List.tail]
          rw [joinNL_cons_cons] at ih ⊢
          rw [List.cons_append, ih]

theorem splitOnNL_joinNL_flat (es : List (List Char)) (hne : es ≠ []) :
    splitOnNL (joinNL es) = es.flatMap splitOnNL := by
  induction es with
  | nil => exact absurd rfl hne
  | cons e es ih =>
    cases es with
    | nil => simp [joinNL]
    | cons e' es' =>
      rw [joinNL_cons_cons, splitOnNL_append_nl, ih (by simp)]
      simp

theorem pyRstrip_idem (l : Line) : pyRstrip (pyRstrip l) = pyRstrip l := by
  unfold pyRstrip
  rw [List.reverse_reverse, dropWhile_dropWhile]

theorem pyStrip_ws_cons {c : Char} (h : isPyWs c = true) (l : Line) :
    pyStrip (c :: l) = pyStrip l := by
  unfold pyStrip
  rw [List.dropWhile_cons_of_pos h]

/-! ### Shapes of rendered lines -/

theorem isBlank_cons_false {c : Char} (h : isPyWs c = false) (l : Line) :
    isBlank (c :: l) = false := by
  simp [isBlank, h]

theorem isBlank_catLine (t : Line) : isBlank (catTok ++ t) = false := by
  rw [show catTok ++ t = 'C' :: (catTok.tail ++ t) from rfl]
  exact isBlank_cons_false (by decide) _

theorem isBlank_descLine (t : Line) : isBlank (descTok ++ t) = false := by
  rw [show descTok ++ t = 'D' :: (descTok.tail ++ t) from rfl]
  exact isBlank_cons_false (by decide) _

theorem isBlank_qnLine (t : Line) : isBlank (qnTok ++ t) = false := by
  rw [show qnTok ++ t = 'Q' :: (qnTok.tail ++ t) from rfl]
  exact isBlank_cons_false (by decide) _

theorem prefixOf_append_self (tok x : Line) : tok.isPrefixOf (tok ++ x) = true := by
  simp

theorem headNe_not_prefixOf {a b : Char} (h : (a == b) = false) (x y : Line) :
    (a :: x).isPrefixOf (b :: y) = false := by
  simp only [List.isPrefixOf, h, Bool.false_and]

theorem catTok_not_prefixOf_descLine (x : Line) :
    catTok.isPrefixOf (descTok ++ x) = false := by
  rw [show catTok = 'C' :: catTok.tail from rfl,
    show descTok ++ x = 'D' :: (descTok.tail ++ x) from rfl]
  exact headNe_not_prefixOf (by decide) _ _

theorem catTok_not_prefixOf_qnLine (x : Line) :
    catTok.isPrefixOf (qnTok ++ x) = false := by
  rw [show catTok = 'C' :: catTok.tail from rfl,
    show qnTok ++ x = 'Q' :: (qnTok.tail ++ x) from rfl]
  exact headNe_not_prefixOf (by decide) _ _

theorem descTok_not_prefixOf_qnLine (x : Line) :
    descTok.isPrefixOf (qnTok ++ x) = false := by
  rw [show descTok = 'D' :: descTok.tail from rfl,
    show qnTok ++ x = 'Q' :: (qnTok.tail ++ x) from rfl]
  exact headNe_not_prefixOf (by decide) _ _

theorem tok_drop_append (tok x : Line) : (tok ++ x).drop tok.length = x :=
  List.drop_left tok x

/-! ### Line-level decomposition of the rendered flat text -/

/-- The lines occupied by a rendered query value: the rendered element is
`value.rstrip()`, which the final `"\n".join` splits back into these lines. -/
def vLines (v : Line) : List Line := splitOnNL (pyRstrip v)

/-- The lines a rendered query contributes to the flat text. -/
def qLines (q : Query) : List Line :=
  [qnTok ++ ' ' :: q.name, sepLine '-'] ++ vLines q.value ++ [sepLine '=', []]

/-- The lines a rendered category contributes, except the two blank spacer
lines produced by the final `"\n"` element. -/
def catBody (c : Category) : List Line :=
  [catTok ++ ' ' :: c.title] ++
    (if c.description ≠ [] then [descTok ++ ' ' :: c.description] else []) ++
    [sepLine '='] ++ c.queries.flatMap qLines

/-- The full line list of `format_queries cats` after `splitlines`. -/
def linesFor : List Category → List Line
  | [] => []
  | [c] => catBody c ++ [[]]
  | c :: cs => catBody c ++ [[], []] ++ linesFor cs

/-- The contribution of an open category to the final result list. -/
def ccList : Option Category → List Category
  | none => []
  | some c => [c]

/-- A query with its value's trailing whitespace removed (what one rendering
and re-parsing round trip does to a query). -/
def trimQuery (q : Query) : Query := ⟨q.name, pyRstrip q.value⟩

/-- A category whose query values have trailing whitespace removed. -/
def trimCategory (c : Category) : Category :=
  ⟨c.title, c.description, c.queries.map trimQuery⟩

/-- Characters other than `'\n'` at which Python `str.splitlines()` breaks
lines.  The model splits only at `'\n'`, so faithfulness of the embedding
requires their absence. -/
def exoticLB (c : Char) : Bool :=
  c = '\r' || c = '\x0b' || c = '\x0c' || c = '\x1c' || c = '\x1d' ||
    c = '\x1e' || c = '\x85' || c = '\u2028' || c = '\u2029'

/-- A single-line field (title, description, query name) that survives the
round trip verbatim: it carries no line break and is strip-invariant. -/
def goodField (s : Line) : Prop :=
  pyStrip s = s ∧ ∀ c ∈ s, (c = '\n' || exoticLB c) = false

/-- A query value that survives the round trip (up to trailing-whitespace
trimming): no exotic line-break characters, and every rendered line is
non-blank, does not begin with `Category:`, and is not an `=`-separator
line (otherwise the parser would skip, divert, or close early). -/
def goodValue (v : Line) : Prop :=
  (∀ c ∈ v, exoticLB c = false) ∧
    (pyRstrip v = [] ∨
      ∀ l ∈ vLines v,
        isBlank l = false ∧ catTok.isPrefixOf l = false ∧
          is_separator_line l '=' = false)

/-- A query whose rendering parses back to itself (value trailing-trimmed). -/
def goodQuery (q : Query) : Prop := goodField q.name ∧ goodValue q.value

/-- A category whose rendering parses back to itself. -/
def goodCategory (c : Category) : Prop :=
  goodField c.title ∧ goodField c.description ∧ ∀ q ∈ c.queries, goodQuery q

instance (s : Line) : Decidable (goodField s) := by
  unfold goodField; infer_instance

instance (v : Line) : Decidable (goodValue v) := by
  unfold goodValue; infer_instance

instance (q : Query) : Decidable (goodQuery q) := by
  unfold goodQuery; infer_instance

instance (c : Category) : Decidable (goodCategory c) := by
  unfold goodCategory; infer_instance

theorem closeForNewCategory_none (cc : Option Category) (acc : List Category) :
    closeForNewCategory cc none acc = (acc ++ ccList cc, none) := by
  cases cc <;> simp [closeForNewCategory, ccList]

theorem consumeDashSep_dash (Y : List Line) :
    consumeDashSep (sepLine '-' :: Y) = some Y := by
  unfold consumeDashSep
  rw [List.dropWhile_cons_of_neg (by simp [show isBlank (sepLine '-') = false from by decide])]
  simp [show is_separator_line (sepLine '-') '-' = true from by decide]

theorem consumeCategoryHeader_noDesc (t : Line) (Y : List Line) :
    consumeCategoryHeader t (sepLine '=' :: Y) = (.in_category, ⟨t, [], []⟩, Y) := by
  unfold consumeCategoryHeader
  rw [List.dropWhile_cons_of_neg (by simp [show isBlank (sepLine '=') = false from by decide])]
  dsimp only
  rw [if_neg (by simp [show descTok.isPrefixOf (sepLine '=') = false from by decide])]
  dsimp only
  rw [List.dropWhile_cons_of_neg (by simp [show isBlank (sepLine '=') = false from by decide])]
  dsimp only
  rw [if_pos (by decide)]

theorem consumeCategoryHeader_desc (t d : Line) (Y : List Line) :
    consumeCategoryHeader t ((descTok ++ ' ' :: d) :: sepLine '=' :: Y) =
      (.in_category, ⟨t, pyStrip d, []⟩, Y) := by
  unfold consumeCategoryHeader
  rw [List.dropWhile_cons_of_neg (by simp [isBlank_descLine])]
  dsimp only
  rw [if_pos (by simp)]
  dsimp only
  rw [List.dropWhile_cons_of_neg (by simp [show isBlank (sepLine '=') = false from by decide])]
  dsimp only
  rw [if_pos (by decide)]
  rw [tok_drop_append, pyStrip_ws_cons (by decide)]

/-! ### The parse loop on rendered lines -/

theorem parseRun_vlines :
    ∀ (vls : List Line),
      (∀ l ∈ vls,
        isBlank l = false ∧ catTok.isPrefixOf l = false ∧
          is_separator_line l '=' = false) →
      ∀ (rest : List Line) (cc : Option Category) (n : Line) (vacc : List Line)
        (acc : List Category),
      parseRun (vls ++ rest) .in_query_value cc (some (n, vacc)) acc =
        parseRun rest .in_query_value cc (some (n, vacc ++ vls)) acc := by
  intro vls
  induction vls with
  | nil => intro _ rest cc n vacc acc; simp
  | cons l ls ih =>
    intro h rest cc n vacc acc
    obtain ⟨h1, h2, h3⟩ := h l (by simp)
    rw [List.cons_append, parseRun_value_acc h1 h2 h3,
      ih (fun x hx => h x (by simp [hx]))]
    rw [show vacc ++ [l] ++ ls = vacc ++ l :: ls by simp]

theorem parseRun_query {q : Query} (hq : goodQuery q) (rest : List Line)
    (c : Category) (acc : List Category) :
    parseRun (qLines q ++ rest) .in_category (some c) none acc =
      parseRun rest .in_category
        (some ⟨c.title, c.description, c.queries ++ [trimQuery q]⟩) none acc := by
  have hsplit : qLines q ++ rest =
      (qnTok ++ ' ' :: q.name) :: sepLine '-' ::
        (vLines q.value ++ (sepLine '=' :: [] :: rest)) := by
    simp [qLines]
  rw [hsplit]
  rw [parseRun_queryname (isBlank_qnLine _) (catTok_not_prefixOf_qnLine _)
    (prefixOf_append_self _ _) (consumeDashSep_dash _)]
  rw [tok_drop_append, pyStrip_ws_cons (by decide), hq.1.1]
  have hb_eq : isBlank (sepLine '=') = false := by decide
  have hc_eq : catTok.isPrefixOf (sepLine '=') = false := by decide
  have hs_eq : is_separator_line (sepLine '=') '=' = true := by decide
  have hclose : ∀ vv : List Line,
      parseRun (sepLine '=' :: [] :: rest) .in_query_value (some c)
        (some (q.name, vv)) acc =
      parseRun rest .in_category
        (some ⟨c.title, c.description,
          c.queries ++ [⟨q.name, pyRstrip (joinNL vv)⟩]⟩) none acc := by
    intro vv
    rw [parseRun_value_sep hb_eq hc_eq hs_eq]
    rw [parseRun_blank (by rfl)]
    rfl
  rcases hq.2.2 with hemp | hlines
  · rw [show vLines q.value = [[]] by rw [vLines, hemp]; rfl]
    rw [show ([[]] : List Line) ++ (sepLine '=' :: [] :: rest) =
      [] :: (sepLine '=' :: [] :: rest) by simp]
    rw [parseRun_blank (by rfl), hclose]
    rw [show pyRstrip (joinNL []) = pyRstrip q.value by rw [hemp]; rfl]
    rfl
  · rw [parseRun_vlines (vLines q.value) hlines, hclose]
    rw [show ([] : List Line) ++ vLines q.value = vLines q.value by simp]
    rw [show pyRstrip (joinNL (vLines q.value)) = pyRstrip q.value by
      rw [vLines, joinNL_splitOnNL, pyRstrip_idem]]
    rfl

theorem parseRun_queries :
    ∀ (qs : List Query), (∀ q ∈ qs, goodQuery q) →
      ∀ (rest : List Line) (c : Category) (acc : List Category),
      parseRun (qs.flatMap qLines ++ rest) .in_category (some c) none acc =
        parseRun rest .in_category
          (some ⟨c.title, c.description, c.queries ++ qs.map trimQuery⟩) none acc := by
  intro qs
  induction qs with
  | nil =>
    intro _ rest c acc
    simp
  | cons q qs ih =>
    intro h rest c acc
    rw [List.flatMap_cons, List.append_assoc,
      parseRun_query (h q (by simp)), ih (fun x hx => h x (by simp [hx]))]
    simp

theorem parseRun_catBody {c : Category} (hc : goodCategory c) (rest : List Line)
    (st : PState) (cc : Option Category) (acc : List Category) :
    parseRun (catBody c ++ rest) st cc none acc =
      parseRun rest .in_category (some (trimCategory c)) none (acc ++ ccList cc) := by
  by_cases hd : c.description = []
  · have hsplit : catBody c ++ rest =
        (catTok ++ ' ' :: c.title) ::
          (sepLine '=' :: (c.queries.flatMap qLines ++ rest)) := by
      simp [catBody, hd]
    rw [hsplit]
    rw [parseRun_category (isBlank_catLine _) (prefixOf_append_self _ _)]
    rw [closeForNewCategory_none]
    rw [tok_drop_append, pyStrip_ws_cons (by decide), hc.1.1]
    rw [consumeCategoryHeader_noDesc]
    rw [parseRun_queries c.queries hc.2.2]
    rw [show (⟨c.title, [], [] ++ c.queries.map trimQuery⟩ : Category) =
      trimCategory c by simp [trimCategory, hd]]
  · have hsplit : catBody c ++ rest =
        (catTok ++ ' ' :: c.title) ::
          ((descTok ++ ' ' :: c.description) ::
            sepLine '=' :: (c.queries.flatMap qLines ++ rest)) := by
      simp [catBody, hd]
    rw [hsplit]
    rw [parseRun_category (isBlank_catLine _) (prefixOf_append_self _ _)]
    rw [closeForNewCategory_none]
    rw [tok_drop_append, pyStrip_ws_cons (by decide), hc.1.1]
    rw [consumeCategoryHeader_desc, hc.2.1.1]
    rw [parseRun_queries c.queries hc.2.2]
    rw [show (⟨c.title, c.description, [] ++ c.queries.map trimQuery⟩ : Category) =
      trimCategory c by simp [trimCategory]]

theorem parseRun_linesFor :
    ∀ (cats : List Category), (∀ c ∈ cats, goodCategory c) →
      ∀ (st : PState) (cc : Option Category) (acc : List Category),
      parseRun (linesFor cats) st cc none acc =
        .ok (acc ++ ccList cc ++ cats.map trimCategory) := by
  intro cats
  induction cats with
  | nil =>
    intro _ st cc acc
    rw [show linesFor [] = [] from rfl, parseRun_nil]
    cases cc <;> simp [atEof, ccList]
  | cons c cs ih =>
    intro h st cc acc
    cases cs with
    | nil =>
      rw [show linesFor [c] = catBody c ++ [[]] from rfl]
      rw [parseRun_catBody (h c (by simp))]
      rw [parseRun_blank (by rfl), parseRun_nil]
      simp [atEof, ccList]
    | cons c' cs' =>
      rw [show linesFor (c :: c' :: cs') =
        catBody c ++ ([] :: [] :: linesFor (c' :: cs')) by simp [linesFor]]
      rw [parseRun_catBody (h c (by simp))]
      rw [parseRun_blank (by rfl), parseRun_blank (by rfl)]
      rw [ih (fun x hx => h x (by simp [hx]))]
      simp [ccList]

/-! ### Splitting the rendered text back into its line list -/

theorem goodField_noNL {s : Line} (h : goodField s) : ∀ c ∈ s, c ≠ '\n' := by
  intro c hc heq
  have := h.2 c hc
  rw [heq] at this
  simp at this

theorem noNL_append {a b : List Char} (ha : ∀ c ∈ a, c ≠ '\n')
    (hb : ∀ c ∈ b, c ≠ '\n') : ∀ c ∈ a ++ b, c ≠ '\n' := by
  intro c hc
  rcases List.mem_append.mp hc with h | h
  · exact ha c h
  · exact hb c h

theorem splitOnNL_catLine {t : Line} (h : ∀ c ∈ t, c ≠ '\n') :
    splitOnNL (catTok ++ ' ' :: t) = [catTok ++ ' ' :: t] :=
  splitOnNL_noNL (noNL_append (by decide)
    (fun c hc => by
      rcases List.mem_cons.mp hc with h1 | h1
      · subst h1; decide
      · exact h c h1))

theorem splitOnNL_descLine {t : Line} (h : ∀ c ∈ t, c ≠ '\n') :
    splitOnNL (descTok ++ ' ' :: t) = [descTok ++ ' ' :: t] :=
  splitOnNL_noNL (noNL_append (by decide)
    (fun c hc => by
      rcases List.mem_cons.mp hc with h1 | h1
      · subst h1; decide
      · exact h c h1))

theorem splitOnNL_qnLine {t : Line} (h : ∀ c ∈ t, c ≠ '\n') :
    splitOnNL (qnTok ++ ' ' :: t) = [qnTok ++ ' ' :: t] :=
  splitOnNL_noNL (noNL_append (by decide)
    (fun c hc => by
      rcases List.mem_cons.mp hc with h1 | h1
      · subst h1; decide
      · exact h c h1))

theorem qElems_flat {q : Query} (hq : goodQuery q) :
    (qElems q).flatMap splitOnNL = qLines q := by
  rw [qElems, qLines]
  simp only [List.flatMap_cons, List.flatMap_nil]
  rw [splitOnNL_qnLine (goodField_noNL hq.1)]
  rw [show splitOnNL (sepLine '-') = [sepLine '-'] from by decide]
  rw [show splitOnNL (sepLine '=') = [sepLine '='] from by decide]
  rw [show splitOnNL ([] : Line) = [[]] from rfl]
  rw [vLines]
  simp

theorem queriesElems_flat :
    ∀ (qs : List Query), (∀ q ∈ qs, goodQuery q) →
      (qs.flatMap qElems).flatMap splitOnNL = qs.flatMap qLines := by
  intro qs
  induction qs with
  | nil => intro _; rfl
  | cons q qs ih =>
    intro h
    rw [List.flatMap_cons, List.flatMap_append, qElems_flat (h q (by simp)),
      ih (fun x hx => h x (by simp [hx])), List.flatMap_cons]

theorem catElems_flat {c : Category} (hc : goodCategory c) :
    (catElems c).flatMap splitOnNL = catBody c ++ [[], []] := by
  rw [catElems, catBody]
  by_cases hd : c.description = []
  · simp only [hd, ne_eq, not_true_eq_false, if_neg, List.flatMap_append,
      List.flatMap_cons, List.flatMap_nil]
    rw [splitOnNL_catLine (goodField_noNL hc.1)]
    rw [show splitOnNL (sepLine '=') = [sepLine '='] from by decide]
    rw [show splitOnNL (['\n'] : Line) = [[], []] from rfl]
    rw [queriesElems_flat c.queries hc.2.2]
    simp [hd]
  · simp only [hd, ne_eq, not_false_eq_true, if_pos, List.flatMap_append,
      List.flatMap_cons, List.flatMap_nil]
    rw [splitOnNL_catLine (goodField_noNL hc.1)]
    rw [splitOnNL_descLine (goodField_noNL hc.2.1)]
    rw [show splitOnNL (sepLine '=') = [sepLine '='] from by decide]
    rw [show splitOnNL (['\n'] : Line) = [[], []] from rfl]
    rw [queriesElems_flat c.queries hc.2.2]
    simp [hd]

theorem catElems_ne_nil (c : Category) : catElems c ≠ [] := by
  rw [catElems]
  simp

theorem flatBodies :
    ∀ (cats : List Category), (∀ c ∈ cats, goodCategory c) →
      (cats.flatMap catElems).flatMap splitOnNL =
        cats.flatMap (fun c => catBody c ++ [[], []]) := by
  intro cats
  induction cats with
  | nil => intro _; rfl
  | cons c cs ih =>
    intro h
    rw [List.flatMap_cons, List.flatMap_append, catElems_flat (h c (by simp)),
      ih (fun x hx => h x (by simp [hx])), List.flatMap_cons]

theorem flatBodies_linesFor :
    ∀ (cats : List Category), cats ≠ [] →
      cats.flatMap (fun c => catBody c ++ [[], []]) = linesFor cats ++ [[]] := by
  intro cats
  induction cats with
  | nil => intro h; exact absurd rfl h
  | cons c cs ih =>
    intro _
    cases cs with
    | nil => simp [linesFor]
    | cons c' cs' =>
      rw [List.flatMap_cons, ih (by simp)]
      rw [show linesFor (c :: c' :: cs') =
        catBody c ++ [[], []] ++ linesFor (c' :: cs') by simp [linesFor]]
      simp

theorem pySplitlines_format {cats : List Category}
    (h : ∀ c ∈ cats, goodCategory c) :
    pySplitlines (format_queries cats) = linesFor cats := by
  cases cats with
  | nil => rfl
  | cons c cs =>
    have hne : (c :: cs).flatMap catElems ≠ [] := by
      rw [List.flatMap_cons]
      have := catElems_ne_nil c
      intro hx
      rcases List.append_eq_nil.mp hx with ⟨h1, _⟩
      exact this h1
    rw [pySplitlines, format_queries]
    rw [splitOnNL_joinNL_flat _ hne, flatBodies _ h, flatBodies_linesFor _ (by simp)]
    rw [List.getLast?_concat]
    rw [if_pos rfl, List.dropLast_concat]

/-! ## Claim theorems -/

/-- C1 (counterexample): the round trip is not the identity on every
configuration.  For the single category `A` with query `Q` whose value is
`"a\n\nb"`, rendering and re-parsing yields value `"a\nb"`: the interior
blank line is dropped (because `parse_plain_text` skips blank lines in
every state), while trailing-whitespace trimming leaves `"a\n\nb"`
unchanged, so the parsed result differs from the original even modulo
trailing-whitespace trimming. -/
theorem C1_roundtrip_counterexample :
    parse_plain_text
        (format_queries [⟨['A'], [], [⟨['Q'], ['a', '\n', '\n', 'b']⟩]⟩]) =
      .ok [⟨['A'], [], [⟨['Q'], ['a', '\n', 'b']⟩]⟩] ∧
    List.map trimCategory [⟨['A'], [], [⟨['Q'], ['a', '\n', '\n', 'b']⟩]⟩] =
      [⟨['A'], [], [⟨['Q'], ['a', '\n', '\n', 'b']⟩]⟩] ∧
    ([⟨['A'], [], [⟨['Q'], ['a', '\n', 'b']⟩]⟩] : List Category) ≠
      [⟨['A'], [], [⟨['Q'], ['a', '\n', '\n', 'b']⟩]⟩] :=
  ⟨rfl, rfl, by decide⟩

/-- C1 (amended): rendering a configuration to flat text and parsing it back
yields the same category list with each query value trailing-whitespace
trimmed, provided each category is `goodCategory`: titles, descriptions and
names are single-line and strip-invariant, and each value renders to lines
that are non-blank, do not start with `Category:`, and are not `=`-separator
lines (and no string uses a line-break character other than `'\n'`). -/
theorem C1_roundtrip_amended (cats : List Category)
    (h : ∀ c ∈ cats, goodCategory c) :
    parse_plain_text (format_queries cats) = .ok (cats.map trimCategory) := by
  rw [parse_plain_text, pySplitlines_format h, parseRun_linesFor _ h]
  rfl

/-- C1 (witness): the amended round trip at a concrete two-category
configuration with a multi-line query value. -/
theorem C1_roundtrip_witness :
    (∀ c ∈ ([⟨['B', 'a', 's', 'i', 'c'], ['D', 'e', 'm', 'o'],
        [⟨['C', 'o', 'u', 'n', 't'], ['S', 'E', 'L', '1', '\n', 'F', 'R', 'O', 'M', ' ', 't']⟩]⟩,
      ⟨['O', 't', 'h', 'e', 'r'], [], []⟩] : List Category), goodCategory c) ∧
    parse_plain_text (format_queries
        [⟨['B', 'a', 's', 'i', 'c'], ['D', 'e', 'm', 'o'],
          [⟨['C', 'o', 'u', 'n', 't'], ['S', 'E', 'L', '1', '\n', 'F', 'R', 'O', 'M', ' ', 't']⟩]⟩,
         ⟨['O', 't', 'h', 'e', 'r'], [], []⟩]) =
      .ok (List.map trimCategory
        [⟨['B', 'a', 's', 'i', 'c'], ['D', 'e', 'm', 'o'],
          [⟨['C', 'o', 'u', 'n', 't'], ['S', 'E', 'L', '1', '\n', 'F', 'R', 'O', 'M', ' ', 't']⟩]⟩,
         ⟨['O', 't', 'h', 'e', 'r'], [], []⟩]) :=
  ⟨by decide, C1_roundtrip_amended _ (by decide)⟩

/-- C4 (counterexample): a blank line inside a query value block is not
accumulated: parsing `Category: A / = / Query Name: Q / - / a / (blank) / b / =`
produces the value `"a\nb"`, not `"a\n\nb"` — the `while` loop skips blank
lines before the state dispatch, so they are skipped even in
`in_query_value`. -/
theorem C4_blankline_counterexample :
    parse_plain_text (joinNL [catTok ++ [' ', 'A'], ['='], qnTok ++ [' ', 'Q'],
        ['-'], ['a'], [], ['b'], ['=']]) =
      .ok [⟨['A'], [], [⟨['Q'], ['a', '\n', 'b']⟩]⟩] ∧
    (['a', '\n', 'b'] : Line) ≠ ['a', '\n', '\n', 'b'] :=
  ⟨rfl, by decide⟩

/-- C4 (amended): blank (whitespace-only) lines are skipped in every state,
including `in_query_value`: a blank line changes neither the state, nor the
open category, nor the accumulated query text — it is never accumulated. -/
theorem C4_blankline_amended {line : Line} (h : isBlank line = true)
    (rest : List Line) (st : PState) (cc : Option Category)
    (cq : Option (Line × List Line)) (acc : List Category) :
    parseRun (line :: rest) st cc cq acc = parseRun rest st cc cq acc :=
  parseRun_blank h rest st cc cq acc

/-- C4 (witness): a whitespace-only line is skipped in the `in_query_value`
state without being accumulated. -/
theorem C4_blankline_witness :
    isBlank [' ', '\t'] = true ∧
    parseRun [[' ', '\t']] .in_query_value (some ⟨['A'], [], []⟩)
        (some (['Q'], [['a']])) [] =
      parseRun [] .in_query_value (some ⟨['A'], [], []⟩) (some (['Q'], [['a']])) [] :=
  ⟨by decide, C4_blankline_amended (by decide) [] .in_query_value
    (some ⟨['A'], [], []⟩) (some (['Q'], [['a']])) []⟩

/-- C5 (counterexample): a `Category:` line that is not followed by an
`=`-separator does NOT make the parser fail: on `Category: A / x` the parser
returns successfully with the category `A` (no queries); there is no
`sys.exit` in the `Category:` branch. -/
theorem C5_missingSep_counterexample :
    parse_plain_text (joinNL [catTok ++ [' ', 'A'], ['x']]) =
      .ok [⟨['A'], [], []⟩] ∧
    ∀ e : PErr, parse_plain_text (joinNL [catTok ++ [' ', 'A'], ['x']]) ≠ .error e := by
  refine ⟨rfl, fun e h => ?_⟩
  rw [show parse_plain_text (joinNL [catTok ++ [' ', 'A'], ['x']]) =
    .ok [⟨['A'], [], []⟩] from rfl] at h
  cases h

/-- C5 (amended): when the lookahead after a `Category:` line (optional
`Description:` line, intervening blanks) finds no `=`-separator line, the
parser does not fail: it continues in the `category_header` state with the
new category open and the lookahead's remaining lines, having closed the
previous category into the result. -/
theorem C5_missingSep_amended {line ttl : Line} {rest rem : List Line}
    {c' : Category} (hb : isBlank line = false)
    (hc : catTok.isPrefixOf line = true)
    (httl : ttl = pyStrip (line.drop catTok.length))
    (h : consumeCategoryHeader ttl rest = (.category_header, c', rem))
    (st : PState) (cc : Option Category) (acc : List Category) :
    parseRun (line :: rest) st cc none acc =
      parseRun rem .category_header (some c') none (acc ++ ccList cc) := by
  rw [parseRun_category hb hc, closeForNewCategory_none, ← httl, h]

/-- C5 (witness): the amended behavior at `Category: A` followed by the
non-separator line `x`. -/
theorem C5_missingSep_witness :
    isBlank (catTok ++ [' ', 'A']) = false ∧
    catTok.isPrefixOf (catTok ++ [' ', 'A']) = true ∧
    consumeCategoryHeader ['A'] [['x']] =
      (.category_header, ⟨['A'], [], []⟩, [['x']]) ∧
    parseRun ((catTok ++ [' ', 'A']) :: [['x']]) .init none none [] =
      parseRun [['x']] .category_header (some ⟨['A'], [], []⟩) none ([] ++ ccList none) :=
  ⟨by decide, by decide, by decide,
    @C5_missingSep_amended (catTok ++ [' ', 'A']) ['A'] [['x']] [['x']]
      ⟨['A'], [], []⟩ (by decide) (by decide) (by decide) (by decide) .init none []⟩

/-- C6 (counterexample): the claim quantifies over every flat text containing
a `Query Name:` line not followed by a `-`-separator; but such a line
occurring before any `Category:` line is silently ignored (the transition
requires the `in_category` state), so the parser succeeds with an empty
result instead of failing. -/
theorem C6_missingDash_counterexample :
    parse_plain_text (joinNL [qnTok ++ [' ', 'Q'], ['x']]) = .ok [] := rfl

/-- C6 (amended): a `Query Name:` line processed in the `in_category` state
whose following lines (after skipping blanks) do not start with a
`-`-separator line — including at end of input — makes the parser fail
fatally with `MalformedFlatText`, and no result is returned. -/
theorem C6_missingDash_amended {line : Line} {rest : List Line}
    (hb : isBlank line = false) (hc : catTok.isPrefixOf line = false)
    (hq : qnTok.isPrefixOf line = true) (hds : consumeDashSep rest = none)
    (c : Category) (acc : List Category) :
    parseRun (line :: rest) .in_category (some c) none acc =
      .error .malformedFlatText :=
  parseRun_queryname_fail hb hc hq hds c acc

/-- C6 (witness): the amended failure at `Query Name: Q` followed by the
non-separator line `x` inside an open category. -/
theorem C6_missingDash_witness :
    consumeDashSep [['x']] = none ∧
    parseRun ((qnTok ++ [' ', 'Q']) :: [['x']]) .in_category
        (some ⟨['A'], [], []⟩) none [] = .error .malformedFlatText :=
  ⟨by decide, C6_missingDash_amended (by decide) (by decide) (by decide)
    (by decide) ⟨['A'], [], []⟩ []⟩

/-- C8: at end of input a still-open query is finalized — its accumulated
lines are joined and right-stripped (which removes trailing blank lines and
trailing whitespace) — and appended to its category, which is appended to
the result; a still-open category alone is appended as is; and a concrete
flat text with no final `=` terminator (and trailing spaces in the value)
parses successfully. -/
theorem C8_eof_finalize :
    (∀ (st : PState) (c : Category) (n : Line) (vls : List Line)
        (acc : List Category),
      parseRun [] st (some c) (some (n, vls)) acc =
        .ok (acc ++ [⟨c.title, c.description,
          c.queries ++ [⟨n, pyRstrip (joinNL vls)⟩]⟩])) ∧
    (∀ (st : PState) (c : Category) (acc : List Category),
      parseRun [] st (some c) none acc = .ok (acc ++ [c])) ∧
    parse_plain_text (joinNL [catTok ++ [' ', 'A'], ['='], qnTok ++ [' ', 'Q'],
        ['-'], ['S', ' ', ' ']]) =
      .ok [⟨['A'], [], [⟨['Q'], ['S']⟩]⟩] :=
  ⟨fun _ _ _ _ _ => rfl, fun _ _ _ => rfl, rfl⟩

/-- C9: the parser is total and never dereferences a missing object: on every
input text, `parse_plain_text` either returns a result or exits with the
explicit missing-`-`-separator error; the `None`-dereference outcome (and
the fuel artifact of the encoding) are unreachable, because the loop
maintains the invariant that `in_query_value` implies an open query and an
open category, and an open query implies an open category. -/
theorem C9_parser_total (t : List Char) :
    (∃ cats, parse_plain_text t = .ok cats) ∨
      parse_plain_text t = .error .malformedFlatText := by
  have hnd : parse_plain_text t ≠ .error .noneDeref := by
    rw [parse_plain_text, parseRun]
    exact parseLoopF_no_noneDeref _
      (loopInv_mk (by simp) (fun hh => by cases hh) (fun hh => by cases hh))
  have hnf : parse_plain_text t ≠ .error .outOfFuel := by
    rw [parse_plain_text, parseRun]
    exact parseLoopF_no_outOfFuel _ (by omega)
  cases hres : parse_plain_text t with
  | ok cats => exact Or.inl ⟨cats, rfl⟩
  | error e =>
    cases e with
    | malformedFlatText => exact Or.inr rfl
    | noneDeref => exact absurd hres hnd
    | outOfFuel => exact absurd hres hnf

/-- C10: an input containing no line that begins with `Category:` parses to
an empty category list: every line (including `Query Name:` lines, which are
only recognized in the `in_category` state) is skipped without error and
without producing output. -/
theorem C10_no_category (t : List Char)
    (h : ∀ l ∈ pySplitlines t, catTok.isPrefixOf l = false) :
    parse_plain_text t = .ok [] := by
  rw [parse_plain_text, parseRun_skipAll _ h _ (Or.inl rfl)]
  rfl

/-- C10 (witness): a flat text consisting of a full query block but no
`Category:` line parses to the empty list. -/
theorem C10_no_category_witness :
    (∀ l ∈ pySplitlines (joinNL [qnTok ++ [' ', 'Q'], ['-'], ['S']]),
      catTok.isPrefixOf l = false) ∧
    parse_plain_text (joinNL [qnTok ++ [' ', 'Q'], ['-'], ['S']]) = .ok [] :=
  ⟨by decide, C10_no_category _ (by decide)⟩

/-! ## The block locator and the document splicer

`extract_console_configuration_json_block` (`import_queries.py` lines
142-174) and `extract_console_configuration_json` (`export_queries.py` lines
19-48) locate, via the regex
`(^[ \t]*console-configuration\.json:\s*\|\s*\n)((?:[ \t]+.*\n)+)`, a header
line followed by a maximal run of lines each beginning with a space or tab.
The model below works on the document as a list of newline-terminated lines
and captures the regex's behavior for documents in which the header is a
single line and the line after it is an indented line with content (the
regex's greedy `\s*` would otherwise absorb leading whitespace-only lines
into the header group); these assumptions appear as hypotheses of the
theorems. -/

/-- A space or tab, the regex class `[ \t]`. -/
def isIndentChar (c : Char) : Bool := c = ' ' || c = '\t'

/-- The test `[ \t]+.*` of the block regex: the line begins with a space or
tab (in particular it is nonempty). -/
def startsWithIndent (l : Line) : Bool :=
  match l with
  | [] => false
  | c :: _ => isIndentChar c

/-- The literal `"console-configuration.json:"`. -/
def conTok : Line :=
  ['c', 'o', 'n', 's', 'o', 'l', 'e', '-', 'c', 'o', 'n', 'f', 'i', 'g', 'u',
   'r', 'a', 't', 'i', 'o', 'n', '.', 'j', 's', 'o', 'n', ':']

/-- The header-line pattern `^[ \t]*console-configuration\.json:\s*\|\s*$`
(the regex's `\s*\|\s*\n` restricted to a single line). -/
def isHeaderLine (l : Line) : Bool :=
  let l1 := l.dropWhile isIndentChar
  conTok.isPrefixOf l1 &&
    (match (l1.drop conTok.length).dropWhile isPyWs with
     | '|' :: l4 => isBlank l4
     | _ => false)

/-- The block body collected by the regex: the maximal run of lines each
beginning with a space or tab. -/
def blockTake (ls : List Line) : List Line := ls.takeWhile startsWithIndent

/-- A located block: the lines before the header, the header line, the block
lines, and the lines after the block. -/
structure BlockLoc where
  pre : List Line
  header : Line
  block : List Line
  rest : List Line
deriving DecidableEq

/-- Scan for the first header line followed by a nonempty indented block
(`re.search` uses the first position at which the whole pattern matches). -/
def findBlock : List Line → Option BlockLoc
  | [] => none
  | l :: ls =>
    if isHeaderLine l && !(blockTake ls).isEmpty then
      some ⟨[], l, blockTake ls, ls.drop (blockTake ls).length⟩
    else
      match findBlock ls with
      | none => none
      | some b => some ⟨l :: b.pre, b.header, b.block, b.rest⟩

/-- The regex `^([ \t]+)` applied to the block's first line
(`import_queries.py` lines 163-165). -/
def leadingIndent (l : Line) : Line := l.takeWhile isIndentChar

/-- `extract_console_configuration_json_block` (`import_queries.py` lines
142-174): the located block, the indent of its first line, and the block
lines with that indent removed where present. -/
def extractBlock (doc : List Line) : Option (BlockLoc × Line × List Line) :=
  match findBlock doc with
  | none => none
  | some b =>
    let indent := leadingIndent (b.block.headD [])
    some (b, indent,
      b.block.map (fun l => if indent.isPrefixOf l then l.drop indent.length else l))

/-- The splice of `main` (`import_queries.py` lines 204 and 214-220): the
document text before the block span, then every rendered JSON line prefixed
with the captured indent, then the text after the span.  (The model assumes
the rendered JSON has at least one line; `json.dumps` output is never
empty.) -/
def importDoc (doc : List Line) (newJsonLines : List Line) : Option (List Line) :=
  match extractBlock doc with
  | none => none
  | some (b, indent, _) =>
    some (b.pre ++ [b.header] ++ newJsonLines.map (fun l => indent ++ l) ++ b.rest)

/-- Does `tok` occur as a contiguous segment of `l`?  Used to assume a line
cannot be (part of) a header line. -/
def hasSeg (tok : Line) : Line → Bool
  | [] => tok.isEmpty
  | c :: cs => tok.isPrefixOf (c :: cs) || hasSeg tok cs

/-- Collector following the claim's words (spec-derived, for comparison with
`blockTake` which is translated from the source regex): collect every line
that is non-empty-with-leading-whitespace or fully blank. -/
def specCollect (ls : List Line) : List Line :=
  ls.takeWhile (fun l => startsWithIndent l || isBlank l)

theorem hasSeg_of_suffix {tok l1 : Line} :
    ∀ {l : Line}, l1 <:+ l → tok.isPrefixOf l1 = true → hasSeg tok l = true := by
  intro l
  induction l with
  | nil =>
    intro hsuf hpre
    rw [List.suffix_nil.mp hsuf] at hpre
    cases tok with
    | nil => rfl
    | cons c cs => simp [List.isPrefixOf] at hpre
  | cons c cs ih =>
    intro hsuf hpre
    obtain ⟨t, ht⟩ := hsuf
    cases t with
    | nil =>
      simp at ht
      subst ht
      simp [hasSeg, hpre]
    | cons a t' =>
      have : l1 <:+ cs := ⟨t', by injection ht with _ h2⟩
      simp [hasSeg, ih this hpre]

theorem isHeaderLine_hasSeg {l : Line} (h : isHeaderLine l = true) :
    hasSeg conTok l = true := by
  rw [isHeaderLine] at h
  have h1 : conTok.isPrefixOf (l.dropWhile isIndentChar) = true :=
    (Bool.and_eq_true _ _ |>.mp h).1
  exact hasSeg_of_suffix (List.dropWhile_suffix _) h1

theorem findBlock_cons_skip {l : Line} (hno : hasSeg conTok l = false)
    (ls : List Line) :
    findBlock (l :: ls) =
      match findBlock ls with
      | none => none
      | some b => some ⟨l :: b.pre, b.header, b.block, b.rest⟩ := by
  rw [findBlock]
  have hh : isHeaderLine l = false := by
    cases hhe : isHeaderLine l with
    | false => rfl
    | true => rw [isHeaderLine_hasSeg hhe] at hno; cases hno
  rw [hh]
  simp

theorem blockTake_decomp {block after : List Line}
    (h4 : ∀ l ∈ block, startsWithIndent l = true)
    (h5 : after = [] ∨ ∃ a as, after = a :: as ∧ startsWithIndent a = false) :
    blockTake (block ++ after) = block ∧
      (block ++ after).drop (blockTake (block ++ after)).length = after := by
  have ht : blockTake (block ++ after) = block := by
    rw [blockTake, List.takeWhile_append_of_pos h4]
    rcases h5 with h | ⟨a, as, rfl, ha⟩
    · simp [h]
    · rw [List.takeWhile_cons_of_neg (by simp [ha])]
      simp
  refine ⟨ht, ?_⟩
  rw [ht, List.drop_left]

theorem findBlock_decomp {pre : List Line} {hl : Line} {block after : List Line}
    (h1 : ∀ l ∈ pre, hasSeg conTok l = false) (h2 : isHeaderLine hl = true)
    (h3 : block ≠ []) (h4 : ∀ l ∈ block, startsWithIndent l = true)
    (h5 : after = [] ∨ ∃ a as, after = a :: as ∧ startsWithIndent a = false) :
    findBlock (pre ++ hl :: (block ++ after)) = some ⟨pre, hl, block, after⟩ := by
  induction pre with
  | nil =>
    rw [List.nil_append, findBlock]
    obtain ⟨ht, hd⟩ := blockTake_decomp h4 h5
    rw [ht] at hd ⊢
    rw [h2]
    simp only [Bool.true_and]
    rw [if_pos (by simp [h3])]
    rw [hd]
  | cons p ps ih =>
    have hps : ∀ l ∈ ps, hasSeg conTok l = false := fun l hl' => h1 l (by simp [hl'])
    rw [List.cons_append, findBlock_cons_skip (h1 p (by simp)), ih hps]

theorem dropWhile_head_false (p : α → Bool) :
    ∀ (l : List α), l.dropWhile p = [] ∨
      ∃ a as, l.dropWhile p = a :: as ∧ p a = false := by
  intro l
  induction l with
  | nil => exact Or.inl rfl
  | cons a as ih =>
    by_cases hp : p a
    · rw [List.dropWhile_cons_of_pos hp]
      exact ih
    · rw [List.dropWhile_cons_of_neg hp]
      exact Or.inr ⟨a, as, rfl, by simp [hp]⟩

/-- C2: for a document consisting of clean lines, the header line, a
nonempty uniformly indented block (whose first line has content), and a
trailing part starting with an unindented line, the import splice returns
exactly the prefix (with the header), then every rendered JSON line carrying
the block's original indentation, then the suffix; everything outside the
block span is reproduced verbatim and every new block line has the original
indentation prefix. -/
theorem C2_document_preservation {pre : List Line} {hl : Line}
    {block after newJson : List Line}
    (h1 : ∀ l ∈ pre, hasSeg conTok l = false) (h2 : isHeaderLine hl = true)
    (h3 : block ≠ []) (h4 : ∀ l ∈ block, startsWithIndent l = true)
    (h5 : after = [] ∨ ∃ a as, after = a :: as ∧ startsWithIndent a = false)
    (_h6 : (block.headD []).any (fun c => !isPyWs c) = true)
    (_h7 : newJson ≠ []) :
    importDoc (pre ++ hl :: (block ++ after)) newJson =
      some (pre ++ [hl] ++
        newJson.map (fun l => leadingIndent (block.headD []) ++ l) ++ after) ∧
    ∀ l ∈ newJson.map (fun l => leadingIndent (block.headD []) ++ l),
      (leadingIndent (block.headD [])).isPrefixOf l = true := by
  constructor
  · rw [importDoc, extractBlock, findBlock_decomp h1 h2 h3 h4 h5]
  · intro l hml
    obtain ⟨x, _, hx⟩ := List.mem_map.mp hml
    rw [← hx]
    exact prefixOf_append_self _ _

/-- C2 (witness): the splice at a concrete document with one other line
before the block, a two-line indented block, and a line after it. -/
theorem C2_document_preservation_witness :
    importDoc ([['k', ':']] ++ (conTok ++ [' ', '|']) ::
        ([[' ', '{'], [' ', '}']] ++ [['e', 'n', 'd']])) [['{'], ['}']] =
      some ([['k', ':']] ++ [conTok ++ [' ', '|']] ++
        List.map (fun l => leadingIndent ([[' ', '{'], [' ', '}']].headD []) ++ l)
          [['{'], ['}']] ++ [['e', 'n', 'd']]) ∧
    ∀ l ∈ List.map (fun l => leadingIndent ([[' ', '{'], [' ', '}']].headD []) ++ l)
        [['{'], ['}']],
      (leadingIndent ([[' ', '{'], [' ', '}']].headD [])).isPrefixOf l = true := by
  have h := @C2_document_preservation [['k', ':']] (conTok ++ [' ', '|'])
    [[' ', '{'], [' ', '}']] [['e', 'n', 'd']] [['{'], ['}']]
    (by decide) (by decide) (by decide) (by decide)
    (Or.inr ⟨['e', 'n', 'd'], [], rfl, by decide⟩) (by decide) (by decide)
  exact ⟨h.1, h.2⟩

/-- C7 (counterexample): the locator does not collect a fully blank but
empty line: in the document with block lines ` a`, an empty line, ` b`, and
an unindented `X`, the collected block is just `[ a]`, while the claim's
collector (indented or fully blank) would collect `[ a]`, the empty line,
and `[ b]`. -/
theorem C7_collect_counterexample :
    findBlock [conTok ++ [' ', '|'], [' ', 'a'], [], [' ', 'b'], ['X']] =
      some ⟨[], conTok ++ [' ', '|'], [[' ', 'a']], [[], [' ', 'b'], ['X']]⟩ ∧
    specCollect [[' ', 'a'], [], [' ', 'b'], ['X']] =
      [[' ', 'a'], [], [' ', 'b']] ∧
    ([[' ', 'a']] : List Line) ≠ [[' ', 'a'], [], [' ', 'b']] :=
  ⟨by decide, by decide, by decide⟩

/-- C7 (amended): when the line immediately after the header is an indented
line with content (were it whitespace-only, the header regex's greedy `\s*`
would absorb it into the header group instead), the block locator collects
exactly the maximal run of lines whose first character is a space or tab:
collection stops at the first line that is empty or begins with a
non-whitespace character (or at end of input).  A later fully blank line
that contains at least one space or tab is collected; an entirely empty
line terminates the block. -/
theorem C7_collect_amended {pre : List Line} {hl : Line} {body : List Line}
    (h1 : ∀ l ∈ pre, hasSeg conTok l = false) (h2 : isHeaderLine hl = true)
    (h3 : blockTake body ≠ [])
    (_h4 : (body.headD []).any (fun c => !isPyWs c) = true) :
    findBlock (pre ++ hl :: body) =
      some ⟨pre, hl, body.takeWhile startsWithIndent,
        body.dropWhile startsWithIndent⟩ := by
  have hdec := List.takeWhile_append_dropWhile startsWithIndent body
  conv in (pre ++ hl :: body) => rw [← hdec]
  rw [findBlock_decomp h1 h2 ?h3 ?h4 ?h5]
  case h3 => rw [blockTake] at h3; exact h3
  case h4 => exact fun l hml => List.mem_takeWhile_imp hml
  case h5 => exact dropWhile_head_false startsWithIndent body

/-- C7 (witness): the amended collection at a concrete document whose first
block line is an indented line with content: two indented lines (the second
whitespace-only but nonempty) are collected, the unindented line stops the
block. -/
theorem C7_collect_amended_witness :
    blockTake [[' ', 'a'], [' ', ' '], ['X']] ≠ [] ∧
    ([[' ', 'a'], [' ', ' '], ['X']].headD []).any (fun c => !isPyWs c) = true ∧
    findBlock ([] ++ (conTok ++ [' ', '|']) :: [[' ', 'a'], [' ', ' '], ['X']]) =
      some ⟨[], conTok ++ [' ', '|'],
        List.takeWhile startsWithIndent [[' ', 'a'], [' ', ' '], ['X']],
        List.dropWhile startsWithIndent [[' ', 'a'], [' ', ' '], ['X']]⟩ :=
  ⟨by decide, by decide,
    C7_collect_amended (by simp) (by decide) (by decide) (by decide)⟩

/-! ## The object update of the import (`import_queries.py` line 211) -/

/-- The literal key `"savedQueries"`. -/
def savedQueriesKey : Line :=
  ['s', 'a', 'v', 'e', 'd', 'Q', 'u', 'e', 'r', 'i', 'e', 's']

/-- Python `d[k] = v` on a dict modelled as an insertion-ordered association
list: if the key is present its entry is replaced in place, otherwise the
pair is appended at the end. -/
def dictSet {V : Type} (d : List (Line × V)) (k : Line) (v : V) : List (Line × V) :=
  if d.any (fun p => p.1 = k) then d.map (fun p => if p.1 = k then (k, v) else p)
  else d ++ [(k, v)]

/-- `original_config["savedQueries"] = new_config.get("savedQueries", [])`
(`import_queries.py` line 211). -/
def updateSavedQueries {V : Type} (orig : List (Line × V)) (v : V) : List (Line × V) :=
  dictSet orig savedQueriesKey v

theorem lookup_setMap {V : Type} {k k' : Line} (hk : k ≠ k') (v : V) :
    ∀ d : List (Line × V),
      (d.map (fun p => if p.1 = k' then (k', v) else p)).lookup k = d.lookup k := by
  intro d
  induction d with
  | nil => rfl
  | cons p d ih =>
    by_cases hp : p.1 = k'
    · rw [List.map_cons, if_pos hp]
      rw [List.lookup_cons, List.lookup_cons]
      rw [show (k == k') = false from beq_eq_false_iff_ne.mpr hk]
      rw [show (k == p.1) = false from beq_eq_false_iff_ne.mpr (hp ▸ hk)]
      exact ih
    · rw [List.map_cons, if_neg hp]
      rw [List.lookup_cons, List.lookup_cons]
      cases hkp : k == p.1
      · exact ih
      · rfl

theorem lookup_setMap_hit {V : Type} {k' : Line} (v : V) :
    ∀ d : List (Line × V), d.any (fun p => p.1 = k') = true →
      (d.map (fun p => if p.1 = k' then (k', v) else p)).lookup k' = some v := by
  intro d
  induction d with
  | nil => intro h; cases h
  | cons p d ih =>
    intro h
    by_cases hp : p.1 = k'
    · rw [List.map_cons, if_pos hp, List.lookup_cons]
      simp
    · rw [List.map_cons, if_neg hp, List.lookup_cons]
      rw [show (k' == p.1) = false from beq_eq_false_iff_ne.mpr (fun he => hp he.symm)]
      apply ih
      rw [List.any_cons] at h
      rcases Bool.or_eq_true _ _ |>.mp h with h' | h'
      · exact absurd (by simpa using h') hp
      · exact h'

theorem lookup_append_single {V : Type} {k k' : Line} (hk : k ≠ k') (v : V) :
    ∀ d : List (Line × V), (d ++ [(k', v)]).lookup k = d.lookup k := by
  intro d
  induction d with
  | nil =>
    rw [List.nil_append, List.lookup_cons]
    rw [show (k == k') = false from beq_eq_false_iff_ne.mpr hk]
  | cons p d ih =>
    rw [List.cons_append, List.lookup_cons, List.lookup_cons]
    cases hkp : k == p.1
    · exact ih
    · rfl

theorem lookup_append_single_hit {V : Type} {k' : Line} (v : V) :
    ∀ d : List (Line × V), d.any (fun p => p.1 = k') = false →
      (d ++ [(k', v)]).lookup k' = some v := by
  intro d
  induction d with
  | nil => intro _; simp [List.lookup_cons]
  | cons p d ih =>
    intro h
    rw [List.any_cons] at h
    have h1 : (decide (p.1 = k')) = false := by
      cases hd : decide (p.1 = k') with
      | false => rfl
      | true => rw [hd] at h; simp at h
    rw [List.cons_append, List.lookup_cons]
    rw [show (k' == p.1) = false from
      beq_eq_false_iff_ne.mpr (fun he => by simp [he.symm] at h1)]
    apply ih
    cases hrest : d.any (fun p => p.1 = k') with
    | false => rfl
    | true => rw [hrest] at h; simp at h

/-- C3: the import's object update replaces only the `savedQueries` entry:
looking up any other key in the updated object gives exactly what the
original object gave (so every other top-level field is present and
unchanged in the object that is serialized back), and looking up
`savedQueries` gives the new value. -/
theorem C3_update_frame {V : Type} (d : List (Line × V)) (v : V) (k : Line)
    (hk : k ≠ savedQueriesKey) :
    (updateSavedQueries d v).lookup k = d.lookup k ∧
      (updateSavedQueries d v).lookup savedQueriesKey = some v := by
  rw [updateSavedQueries, dictSet]
  cases hany : d.any (fun p => p.1 = savedQueriesKey) with
  | true =>
    rw [if_pos rfl]
    exact ⟨lookup_setMap hk v d, lookup_setMap_hit v d hany⟩
  | false =>
    rw [if_neg (by simp [hany])]
    exact ⟨lookup_append_single hk v d, lookup_append_single_hit v d hany⟩

/-- C3 (witness): scenario 2 of the spec: an original object with an
unrelated field `readOnly: true`; after the update with a two-category
parsed list, `readOnly` is unchanged and `savedQueries` holds the new
list. -/
theorem C3_update_frame_witness :
    (['r', 'e', 'a', 'd', 'O', 'n', 'l', 'y'] : Line) ≠ savedQueriesKey ∧
    (updateSavedQueries
        [((['r', 'e', 'a', 'd', 'O', 'n', 'l', 'y'] : Line), ([] : List Category)),
         (savedQueriesKey, [⟨['o'], [], []⟩])]
        [⟨['A'], [], []⟩, ⟨['B'], [], []⟩]).lookup
        ['r', 'e', 'a', 'd', 'O', 'n', 'l', 'y'] =
      ([((['r', 'e', 'a', 'd', 'O', 'n', 'l', 'y'] : Line), ([] : List Category)),
         (savedQueriesKey, [⟨['o'], [], []⟩])]).lookup
        ['r', 'e', 'a', 'd', 'O', 'n', 'l', 'y'] ∧
    (updateSavedQueries
        [((['r', 'e', 'a', 'd', 'O', 'n', 'l', 'y'] : Line), ([] : List Category)),
         (savedQueriesKey, [⟨['o'], [], []⟩])]
        [⟨['A'], [], []⟩, ⟨['B'], [], []⟩]).lookup savedQueriesKey =
      some [⟨['A'], [], []⟩, ⟨['B'], [], []⟩] := by
  have h := C3_update_frame
    [((['r', 'e', 'a', 'd', 'O', 'n', 'l', 'y'] : Line), ([] : List Category)),
     (savedQueriesKey, [⟨['o'], [], []⟩])]
    [⟨['A'], [], []⟩, ⟨['B'], [], []⟩]
    ['r', 'e', 'a', 'd', 'O', 'n', 'l', 'y'] (by decide)
  exact ⟨by decide, h.1, h.2⟩

end DemoQueries
